import Mathlib

/-!
A shallow embedding of `ConfigLanguageTransformer.cpp`: a lexer and
recursive-descent parser for a small configuration DSL (hex literals,
`#( ... )` arrays, `{ ... }` objects, `global` constants referenced by
`?[NAME]`) and a JSON serializer, together with theorems checking the
natural-language specification against this code.

Machine integers are modelled as `Nat`/`Int` (the only 64-bit operation,
`stoll`, raises on overflow rather than wrapping, so no modular arithmetic
is needed).  C++ exceptions are modelled by `Except`.  The unbounded
recursion of the C++ parser is modelled with an explicit fuel parameter;
running out of fuel is the artificial `PError.fuelExhausted`, which the
real program never produces (it would instead recurse deeper).
-/

/-- `TokenType` from the source (`EOF_TOKEN` is the spec's END kind). -/
inductive TokenType where
  | NUMBER | STRING | IDENTIFIER | LBRACE | RBRACE
  | LBRACKET | RBRACKET | LPAREN | RPAREN | HASH | EQUALS | QUESTION
  | GLOBAL | EOF_TOKEN | INVALID
deriving DecidableEq, Repr

/-- `struct Token`: kind, text, line, column. -/
structure Token where
  type : TokenType
  value : String
  line : Nat
  col : Nat
deriving DecidableEq, Repr

/-- The `Lexer` state: the not-yet-consumed characters of the input
(`input`/`position` in the source) plus the line/column counters. -/
structure LexState where
  rest : List Char
  line : Nat
  col : Nat
deriving DecidableEq, Repr

/-- C `isspace` on ASCII input: the six standard whitespace characters. -/
def isSpaceC (c : Char) : Bool :=
  c == ' ' || c == '\t' || c == '\n' || c == '\x0b' || c == '\x0c' || c == '\r'

/-- C `isdigit` on ASCII input. -/
def isDigitC (c : Char) : Bool :=
  '0' ≤ c && c ≤ '9'

/-- C `isalpha` on ASCII input. -/
def isAlphaC (c : Char) : Bool :=
  ('A' ≤ c && c ≤ 'Z') || ('a' ≤ c && c ≤ 'z')

/-- C `isalnum` on ASCII input. -/
def isAlnumC (c : Char) : Bool :=
  isAlphaC c || isDigitC c

/-- `Lexer::isHexDigit`. -/
def isHexDigit (c : Char) : Bool :=
  isDigitC c || ('a' ≤ c && c ≤ 'f') || ('A' ≤ c && c ≤ 'F')

/-- `Lexer::advance` applied to one character: consume it and update the
line/column counters exactly as the source does. -/
def advanceChar (s : LexState) : LexState :=
  match s.rest with
  | [] => s
  | c :: r => if c == '\n' then ⟨r, s.line + 1, 1⟩ else ⟨r, s.line, s.col + 1⟩

/-- `Lexer::skipWhitespace`: advance while the current character is
whitespace. -/
def skipWs : List Char → Nat → Nat → LexState
  | [], l, c => ⟨[], l, c⟩
  | ch :: r, l, c =>
    if isSpaceC ch then
      if ch == '\n' then skipWs r (l + 1) 1 else skipWs r l (c + 1)
    else ⟨ch :: r, l, c⟩

/-- The `while (... p(peek())) s += advance();` loops of `nextToken`:
collect the maximal run of characters satisfying `p`, updating
line/column per character consumed. -/
def scanWhile (p : Char → Bool) : List Char → Nat → Nat → List Char × LexState
  | [], l, c => ([], ⟨[], l, c⟩)
  | ch :: r, l, c =>
    if p ch then
      let res := if ch == '\n' then scanWhile p r (l + 1) 1 else scanWhile p r l (c + 1)
      (ch :: res.1, res.2)
    else ([], ⟨ch :: r, l, c⟩)

/-- `Lexer::nextToken`, translated branch by branch from the source:
skip whitespace; END at end of input; `0x`/`0X` starts a NUMBER whose
text is the following maximal hex-digit run (possibly empty, prefix
stripped); a letter starts an identifier with `global`/`true`/`false`
special-cased; `"` starts a STRING consumed verbatim up to the next `"`,
NUL, or end of input; nine punctuation characters; anything else is an
INVALID token holding that one character. -/
def nextToken (st : LexState) : Token × LexState :=
  let s := skipWs st.rest st.line st.col
  match s.rest with
  | [] => (⟨.EOF_TOKEN, "", s.line, s.col⟩, s)
  | c :: r =>
    let startLine := s.line
    let startCol := s.col
    if c == '0' && (match r with | x :: _ => x == 'x' || x == 'X' | [] => false) then
      let s2 := advanceChar (advanceChar s)
      let res := scanWhile isHexDigit s2.rest s2.line s2.col
      (⟨.NUMBER, String.mk res.1, startLine, startCol⟩, res.2)
    else if isAlphaC c then
      let res := scanWhile (fun ch => isAlnumC ch || ch == '_') s.rest s.line s.col
      let identifier := String.mk res.1
      if identifier == "global" then (⟨.GLOBAL, identifier, startLine, startCol⟩, res.2)
      else if identifier == "true" || identifier == "false" then
        (⟨.STRING, identifier, startLine, startCol⟩, res.2)
      else (⟨.IDENTIFIER, identifier, startLine, startCol⟩, res.2)
    else if c == '\"' then
      let s1 := advanceChar s
      let res := scanWhile (fun ch => !(ch == '\"') && !(ch == '\x00')) s1.rest s1.line s1.col
      let s2 := match res.2.rest with
        | '\"' :: _ => advanceChar res.2
        | _ => res.2
      (⟨.STRING, String.mk res.1, startLine, startCol⟩, s2)
    else if c == '{' then (⟨.LBRACE, "\x7b", startLine, startCol⟩, advanceChar s)
    else if c == '}' then (⟨.RBRACE, "\x7d", startLine, startCol⟩, advanceChar s)
    else if c == '[' then (⟨.LBRACKET, "[", startLine, startCol⟩, advanceChar s)
    else if c == ']' then (⟨.RBRACKET, "]", startLine, startCol⟩, advanceChar s)
    else if c == '(' then (⟨.LPAREN, "(", startLine, startCol⟩, advanceChar s)
    else if c == ')' then (⟨.RPAREN, ")", startLine, startCol⟩, advanceChar s)
    else if c == '#' then (⟨.HASH, "#", startLine, startCol⟩, advanceChar s)
    else if c == '=' then (⟨.EQUALS, "=", startLine, startCol⟩, advanceChar s)
    else if c == '?' then (⟨.QUESTION, "?", startLine, startCol⟩, advanceChar s)
    else (⟨.INVALID, String.mk [c], startLine, startCol⟩, advanceChar s)

/-- The `ASTNode` class hierarchy as a closed variant: `NumberNode`
(a C++ `long long`, modelled as `Int`), `StringNode`, `BoolNode`,
`ArrayNode` (a vector of children), `ObjectNode` (a `std::map` from key
to child, modelled as an association list kept strictly sorted by key —
the `std::map` ordering invariant). -/
inductive Node where
  | num (v : Int)
  | str (s : String)
  | bool (b : Bool)
  | arr (elems : List Node)
  | obj (props : List (String × Node))
deriving Repr

/-- `string(n, ' ')`: the indentation strings built by `ObjectNode::toJSON`. -/
def spacesStr (n : Nat) : String := String.mk (List.replicate n ' ')

mutual

/-- The virtual `toJSON(int indent)` of each node class, translated from
the source: numbers print in decimal, strings are double-quoted verbatim,
booleans are `true`/`false`, arrays are single-line `[e, e, ...]` with
every element serialized at indent 0 (the C++ call `toJSON()` uses the
default argument), and a non-empty object is multi-line with entries
indented by `indent + 2`. -/
def toJSON : Node → Nat → String
  | Node.num v, _ => toString v
  | Node.str s, _ => "\"" ++ s ++ "\""
  | Node.bool b, _ => if b then "true" else "false"
  | Node.arr es, _ => "[" ++ arrJoin es ++ "]"
  | Node.obj ps, indent =>
    if ps.isEmpty then "\x7b\x7d"
    else "\x7b\n" ++ objEntries ps (indent + 2) ++ "\n" ++ spacesStr indent ++ "\x7d"

/-- The element loop of `ArrayNode::toJSON`: children joined by `", "`,
each serialized with the defaulted indent 0. -/
def arrJoin : List Node → String
  | [] => ""
  | [e] => toJSON e 0
  | e :: e2 :: rest => toJSON e 0 ++ ", " ++ arrJoin (e2 :: rest)

/-- The entry loop of `ObjectNode::toJSON`: each entry is
`indentStr ++ "\"key\": " ++ value.toJSON(indent + 2)`, entries joined by
`",\n"`; the map's iteration order is the sorted order of the list. -/
def objEntries : List (String × Node) → Nat → String
  | [], _ => ""
  | [(k, v)], ind => spacesStr ind ++ "\"" ++ k ++ "\": " ++ toJSON v ind
  | (k, v) :: p :: rest, ind =>
      spacesStr ind ++ "\"" ++ k ++ "\": " ++ toJSON v ind ++ ",\n" ++ objEntries (p :: rest) ind

end

/-- `std::string::operator<` on the character lists: lexicographic
character-wise comparison, written as a plainly structural Boolean
function (proved below to agree with the `<` order on strings). -/
def strLtB : List Char → List Char → Bool
  | [], [] => false
  | [], _ :: _ => true
  | _ :: _, [] => false
  | a :: as, b :: bs =>
    if a.toNat < b.toNat then true
    else if b.toNat < a.toNat then false
    else strLtB as bs

/-- `std::string::operator<`, the key order of every `std::map` here. -/
def strLt (a b : String) : Bool := strLtB a.data b.data

/-- `std::map::operator[]` assignment (`properties[key] = value` in
`ObjectNode::addProperty`, `constants[name] = value` in `Parser::parse`):
insert into the sorted association list, replacing the entry when the key
is already present. -/
def mapInsert (k : String) (v : Node) : List (String × Node) → List (String × Node)
  | [] => [(k, v)]
  | (k1, v1) :: rest =>
    if strLt k k1 then (k, v) :: (k1, v1) :: rest
    else if strLt k1 k then (k1, v1) :: mapInsert k v rest
    else (k, v) :: rest

/-- `std::map::find` as used on the Constant Table. -/
def lookupConst (name : String) : List (String × Node) → Option Node
  | [] => none
  | (k, v) :: rest => if k == name then some v else lookupConst name rest

/-- The errors the translation can raise.  `syntaxError`, `unknownConstant`,
`unexpectedValueToken`, `expectedIdentifierInObject` and
`unexpectedTopToken` are the `runtime_error`s thrown by the parser itself;
`stdInvalidArgument` and `stdOutOfRange` are the exceptions `stoll` throws
on an empty digit string and on a literal exceeding the `long long` range
(the spec's NumericOverflow condition).  `fuelExhausted` is an artifact of
the fuel-based model of the parser's unbounded recursion related only to
insufficient fuel, never to the input's content. -/
inductive PError where
  | syntaxError (line col : Nat) (expected actual : TokenType)
  | unknownConstant (name : String)
  | unexpectedValueToken (value : String) (line : Nat)
  | expectedIdentifierInObject
  | unexpectedTopToken (value : String) (line : Nat)
  | stdInvalidArgument
  | stdOutOfRange
  | fuelExhausted
deriving DecidableEq, Repr

/-- The `Parser` state: the lexer, the one-token lookahead
(`currentToken`) and the Constant Table (`constants`). -/
structure PState where
  lex : LexState
  cur : Token
  consts : List (String × Node)
deriving Repr

/-- `Parser::eat`: check the lookahead's kind and advance, or throw the
syntax error carrying line, column, expected and actual kind. -/
def eat (expected : TokenType) (s : PState) : Except PError PState :=
  if s.cur.type == expected then
    let res := nextToken s.lex
    .ok { s with lex := res.2, cur := res.1 }
  else .error (.syntaxError s.cur.line s.cur.col expected s.cur.type)

/-- The value of one hex digit. -/
def hexVal (c : Char) : Nat :=
  if isDigitC c then c.toNat - '0'.toNat
  else if 'a' ≤ c && c ≤ 'f' then c.toNat - 'a'.toNat + 10
  else c.toNat - 'A'.toNat + 10

/-- `stoll(text, nullptr, 16)` as invoked on a NUMBER token's text, which
the lexer guarantees is a (possibly empty) run of hex digits: an empty
string throws `std::invalid_argument`; otherwise the digits are decoded
in base 16, throwing `std::out_of_range` when the value exceeds
`LLONG_MAX = 2^63 - 1`. -/
def decodeHex (t : String) : Except PError Int :=
  match t.data with
  | [] => .error .stdInvalidArgument
  | ds =>
    let n : Nat := ds.foldl (fun acc c => acc * 16 + hexVal c) 0
    if n < 2 ^ 63 then .ok (n : Int) else .error .stdOutOfRange

mutual

/-- `Parser::parseValue`, translated branch by branch: NUMBER decodes via
`stoll` base 16; STRING is a Boolean node when the text is exactly
`true`/`false`, otherwise a Text node; `#(` starts an array of values;
`?[NAME]` resolves NAME against the Constant Table as it stands now,
throwing UnknownConstant when absent and otherwise returning the stored
node itself; `{` parses an object; anything else is the "unexpected token
in value" error.  The `Nat` argument is recursion fuel (see the header). -/
def parseValue : Nat → PState → Except PError (Node × PState)
  | 0, _ => .error .fuelExhausted
  | fuel + 1, s =>
    match s.cur.type with
    | .NUMBER =>
      match decodeHex s.cur.value with
      | .error e => .error e
      | .ok v =>
        match eat .NUMBER s with
        | .error e => .error e
        | .ok s1 => .ok (.num v, s1)
    | .STRING =>
      if s.cur.value == "true" || s.cur.value == "false" then
        match eat .STRING s with
        | .error e => .error e
        | .ok s1 => .ok (.bool (s.cur.value == "true"), s1)
      else
        match eat .STRING s with
        | .error e => .error e
        | .ok s1 => .ok (.str s.cur.value, s1)
    | .HASH =>
      match eat .HASH s with
      | .error e => .error e
      | .ok s1 =>
        match eat .LPAREN s1 with
        | .error e => .error e
        | .ok s2 =>
          match parseArrayElems fuel s2 with
          | .error e => .error e
          | .ok (elems, s3) =>
            match eat .RPAREN s3 with
            | .error e => .error e
            | .ok s4 => .ok (.arr elems, s4)
    | .QUESTION =>
      match eat .QUESTION s with
      | .error e => .error e
      | .ok s1 =>
        match eat .LBRACKET s1 with
        | .error e => .error e
        | .ok s2 =>
          let constantName := s2.cur.value
          match eat .IDENTIFIER s2 with
          | .error e => .error e
          | .ok s3 =>
            match eat .RBRACKET s3 with
            | .error e => .error e
            | .ok s4 =>
              match lookupConst constantName s4.consts with
              | none => .error (.unknownConstant constantName)
              | some v => .ok (v, s4)
    | .LBRACE => parseObject fuel s
    | _ => .error (.unexpectedValueToken s.cur.value s.cur.line)

/-- The `while (cur != RPAREN && cur != EOF) addElement(parseValue())`
loop inside `parseValue`'s array branch. -/
def parseArrayElems : Nat → PState → Except PError (List Node × PState)
  | 0, _ => .error .fuelExhausted
  | fuel + 1, s =>
    if s.cur.type != .RPAREN && s.cur.type != .EOF_TOKEN then
      match parseValue fuel s with
      | .error e => .error e
      | .ok (v, s1) =>
        match parseArrayElems fuel s1 with
        | .error e => .error e
        | .ok (vs, s2) => .ok (v :: vs, s2)
    else .ok ([], s)

/-- `Parser::parseObject`: eat `{`, run the key/value loop into a fresh
`ObjectNode`, eat `}`. -/
def parseObject : Nat → PState → Except PError (Node × PState)
  | 0, _ => .error .fuelExhausted
  | fuel + 1, s =>
    match eat .LBRACE s with
    | .error e => .error e
    | .ok s1 =>
      match parseObjProps fuel [] s1 with
      | .error e => .error e
      | .ok (props, s2) =>
        match eat .RBRACE s2 with
        | .error e => .error e
        | .ok s3 => .ok (.obj props, s3)

/-- The `while (cur != RBRACE && cur != EOF)` loop of
`Parser::parseObject`: each iteration reads `IDENT = value` and
`addProperty`s it (overwriting a duplicate key), or throws the "expected
identifier in object" error. -/
def parseObjProps : Nat → List (String × Node) → PState → Except PError (List (String × Node) × PState)
  | 0, _, _ => .error .fuelExhausted
  | fuel + 1, acc, s =>
    if s.cur.type != .RBRACE && s.cur.type != .EOF_TOKEN then
      if s.cur.type == .IDENTIFIER then
        let key := s.cur.value
        match eat .IDENTIFIER s with
        | .error e => .error e
        | .ok s1 =>
          match eat .EQUALS s1 with
          | .error e => .error e
          | .ok s2 =>
            match parseValue fuel s2 with
            | .error e => .error e
            | .ok (v, s3) => parseObjProps fuel (mapInsert key v acc) s3
      else .error .expectedIdentifierInObject
    else .ok (acc, s)

end

/-- The `while (cur != EOF)` loop of `Parser::parse`: top-level `global`
declarations go into the Constant Table (overwriting an existing entry,
like every `std::map` assignment), `IDENT = value` into the root object,
and a bare `{ ... }` block into the root under the fixed key
`"unnamed"`; any other token is the top-level "unexpected token" error. -/
def parseTop : Nat → List (String × Node) → PState → Except PError (List (String × Node) × PState)
  | 0, _, _ => .error .fuelExhausted
  | fuel + 1, rootProps, s =>
    if s.cur.type != .EOF_TOKEN then
      if s.cur.type == .GLOBAL then
        match eat .GLOBAL s with
        | .error e => .error e
        | .ok s1 =>
          let name := s1.cur.value
          match eat .IDENTIFIER s1 with
          | .error e => .error e
          | .ok s2 =>
            match eat .EQUALS s2 with
            | .error e => .error e
            | .ok s3 =>
              match parseValue fuel s3 with
              | .error e => .error e
              | .ok (v, s4) =>
                parseTop fuel rootProps { s4 with consts := mapInsert name v s4.consts }
      else if s.cur.type == .IDENTIFIER then
        let key := s.cur.value
        match eat .IDENTIFIER s with
        | .error e => .error e
        | .ok s1 =>
          match eat .EQUALS s1 with
          | .error e => .error e
          | .ok s2 =>
            match parseValue fuel s2 with
            | .error e => .error e
            | .ok (v, s3) => parseTop fuel (mapInsert key v rootProps) s3
      else if s.cur.type == .LBRACE then
        match parseObject fuel s with
        | .error e => .error e
        | .ok (objNode, s1) => parseTop fuel (mapInsert "unnamed" objNode rootProps) s1
      else .error (.unexpectedTopToken s.cur.value s.cur.line)
    else .ok (rootProps, s)

/-- The `Parser` constructor: prime the one-token lookahead from the
lexer over the whole input, with an empty Constant Table. -/
def initState (input : String) : PState :=
  let res := nextToken ⟨input.data, 1, 1⟩
  ⟨res.2, res.1, []⟩

/-- `Parser::parse` started on fresh `Lexer(input)`: returns the root
`ObjectNode` or the first error. -/
def parse (fuel : Nat) (input : String) : Except PError Node :=
  match parseTop fuel [] (initState input) with
  | .error e => .error e
  | .ok (props, _) => .ok (Node.obj props)

/-- The whole pipeline as invoked by `main`: parse, then `ast->toJSON()`
with the defaulted indent 0 (the spec's `translate` operation). -/
def translateProgram (fuel : Nat) (input : String) : Except PError String :=
  match parse fuel input with
  | .error e => .error e
  | .ok root => .ok (toJSON root 0)

/-! ## Specification predicates and helper lemmas -/

/-- `b` is strictly below the first key of the list (vacuously true of `[]`). -/
def keyLB (b : String) : List (String × Node) → Bool
  | [] => true
  | (k, _) :: _ => strLt b k

/-- The `std::map` ordering invariant: keys strictly increasing
(lexicographically), hence also pairwise distinct. -/
def keysSortedB : List (String × Node) → Bool
  | [] => true
  | (k, _) :: rest => keyLB k rest && keysSortedB rest

mutual

/-- Every Mapping anywhere inside the node has strictly sorted keys. -/
def nodeSorted : Node → Bool
  | .num _ => true
  | .str _ => true
  | .bool _ => true
  | .arr es => nodesSorted es
  | .obj ps => keysSortedB ps && propsNodesSorted ps

/-- `nodeSorted` on every node of a list. -/
def nodesSorted : List Node → Bool
  | [] => true
  | n :: rest => nodeSorted n && nodesSorted rest

/-- `nodeSorted` on every value of a property list. -/
def propsNodesSorted : List (String × Node) → Bool
  | [] => true
  | (_, v) :: rest => nodeSorted v && propsNodesSorted rest

end

mutual

/-- Every Number anywhere inside the node lies in `[0, 2^63)`, the
non-negative half of the signed 64-bit range. -/
def numsOK : Node → Bool
  | .num v => decide (0 ≤ v ∧ v < 2 ^ 63)
  | .str _ => true
  | .bool _ => true
  | .arr es => listNumsOK es
  | .obj ps => propsNumsOK ps

/-- `numsOK` on every node of a list. -/
def listNumsOK : List Node → Bool
  | [] => true
  | n :: rest => numsOK n && listNumsOK rest

/-- `numsOK` on every value of a property list. -/
def propsNumsOK : List (String × Node) → Bool
  | [] => true
  | (_, v) :: rest => numsOK v && propsNumsOK rest

end

/-- Both structural invariants of one node. -/
def nodeWF (n : Node) : Bool := nodeSorted n && numsOK n

/-- Both structural invariants of every value of a property list. -/
def propsValsWF (ps : List (String × Node)) : Bool :=
  propsNodesSorted ps && propsNumsOK ps

/-- Both structural invariants of every node of a list. -/
def elemsWF (es : List Node) : Bool := nodesSorted es && listNumsOK es

theorem charLt_iff (a b : Char) : a.toNat < b.toNat ↔ a < b :=
  ⟨fun h => h, fun h => h⟩

theorem charEq_of_not_lt {a b : Char} (h1 : ¬a.toNat < b.toNat) (h2 : ¬b.toNat < a.toNat) :
    a = b :=
  le_antisymm (not_lt.mp ((charLt_iff b a).not.mp h2)) (not_lt.mp ((charLt_iff a b).not.mp h1))

/-- The Boolean comparison agrees with the lexicographic order on
character lists. -/
theorem strLtB_iff : ∀ as bs : List Char, strLtB as bs = true ↔ as < bs := by
  intro as
  induction as with
  | nil =>
    intro bs
    cases bs with
    | nil =>
      constructor
      · intro h; cases h
      · intro h; cases h
    | cons b bs2 =>
      constructor
      · intro _; exact List.Lex.nil
      · intro _; rfl
  | cons a as2 ih =>
    intro bs
    cases bs with
    | nil =>
      constructor
      · intro h; cases h
      · intro h; cases h
    | cons b bs2 =>
      unfold strLtB
      split
      · rename_i h
        simp only [true_iff]
        exact List.Lex.rel ((charLt_iff a b).mp h)
      · split
        · rename_i h1 h2
          constructor
          · intro h; cases h
          · intro hcon
            exfalso
            cases hcon with
            | cons h3 => exact absurd h2 (lt_irrefl _)
            | rel h3 => exact absurd ((charLt_iff a b).mpr h3) h1
        · rename_i h1 h2
          have heq : a = b := charEq_of_not_lt h1 h2
          subst heq
          rw [ih bs2]
          constructor
          · intro h3
            exact List.Lex.cons h3
          · intro h3
            cases h3 with
            | cons h4 => exact h4
            | rel h4 => exact absurd ((charLt_iff a a).mpr h4) h1

/-- The Boolean comparison agrees with the lexicographic order on strings. -/
theorem strLt_iff (a b : String) : strLt a b = true ↔ a < b := by
  rw [String.lt_iff_toList_lt]
  exact strLtB_iff a.data b.data

/-- A key above the lower bound keeps the bound through an
insertion. -/
theorem mapInsert_keyLB {k : String} {v : Node} {b : String} :
    ∀ ps, keyLB b ps = true → strLt b k = true → keyLB b (mapInsert k v ps) = true := by
  intro ps h hbk
  match ps with
  | [] => simp [mapInsert, keyLB, hbk]
  | (k1, v1) :: rest =>
    simp only [keyLB] at h
    unfold mapInsert
    split
    · simp [keyLB, hbk]
    · split
      · simp [keyLB, h]
      · simp [keyLB, hbk]

/-- `std::map` assignment keeps the key set strictly sorted. -/
theorem mapInsert_sorted {k : String} {v : Node} :
    ∀ ps, keysSortedB ps = true → keysSortedB (mapInsert k v ps) = true := by
  intro ps
  induction ps with
  | nil => intro _; simp [mapInsert, keysSortedB, keyLB]
  | cons p rest ih =>
    obtain ⟨k1, v1⟩ := p
    intro h
    simp only [keysSortedB, Bool.and_eq_true] at h
    obtain ⟨hlb, hrest⟩ := h
    unfold mapInsert
    split
    · rename_i hk
      simp only [keysSortedB, keyLB, Bool.and_eq_true]
      exact ⟨hk, hlb, hrest⟩
    · split
      · rename_i hk1
        simp only [keysSortedB, Bool.and_eq_true]
        exact ⟨mapInsert_keyLB rest hlb hk1, ih hrest⟩
      · rename_i h1 h2
        have : k = k1 :=
          le_antisymm (not_lt.mp (fun hc => h2 ((strLt_iff k1 k).mpr hc)))
            (not_lt.mp (fun hc => h1 ((strLt_iff k k1).mpr hc)))
        subst this
        simp only [keysSortedB, Bool.and_eq_true]
        exact ⟨hlb, hrest⟩

/-- `std::map` assignment keeps every stored value well-formed when the
inserted value is. -/
theorem mapInsert_valsWF {k : String} {v : Node} :
    ∀ ps, propsValsWF ps = true → nodeWF v = true → propsValsWF (mapInsert k v ps) = true := by
  intro ps
  induction ps with
  | nil =>
    intro _ hv
    simp only [nodeWF, Bool.and_eq_true] at hv
    simp [mapInsert, propsValsWF, propsNodesSorted, propsNumsOK, hv.1, hv.2]
  | cons p rest ih =>
    obtain ⟨k1, v1⟩ := p
    intro h hv
    simp only [propsValsWF, propsNodesSorted, propsNumsOK, Bool.and_eq_true] at h
    obtain ⟨⟨hs1, hsr⟩, hn1, hnr⟩ := h
    simp only [nodeWF, Bool.and_eq_true] at hv
    unfold mapInsert
    split
    · simp [propsValsWF, propsNodesSorted, propsNumsOK, hv.1, hv.2, hs1, hsr, hn1, hnr]
    · split
      · have := ih (by simp [propsValsWF, hsr, hnr]) (by simp [nodeWF, hv.1, hv.2])
        simp only [propsValsWF, Bool.and_eq_true] at this
        simp [propsValsWF, propsNodesSorted, propsNumsOK, hs1, hn1, this.1, this.2]
      · simp [propsValsWF, propsNodesSorted, propsNumsOK, hv.1, hv.2, hsr, hnr]

/-- A node found in a table of well-formed values is well-formed. -/
theorem lookupConst_wf {name : String} {v : Node} :
    ∀ cs, lookupConst name cs = some v → propsValsWF cs = true → nodeWF v = true := by
  intro cs
  induction cs with
  | nil => intro h; simp [lookupConst] at h
  | cons p rest ih =>
    obtain ⟨k1, v1⟩ := p
    intro h hwf
    simp only [propsValsWF, propsNodesSorted, propsNumsOK, Bool.and_eq_true] at hwf
    obtain ⟨⟨hs1, hsr⟩, hn1, hnr⟩ := hwf
    unfold lookupConst at h
    split at h
    · injection h with h1
      subst h1
      simp [nodeWF, hs1, hn1]
    · exact ih h (by simp [propsValsWF, hsr, hnr])

/-- `eat` never touches the Constant Table. -/
theorem eat_consts {t : TokenType} {s s1 : PState} (h : eat t s = .ok s1) :
    s1.consts = s.consts := by
  unfold eat at h
  split at h
  · injection h with h1
    subst h1
    rfl
  · simp at h

/-- A successful `stoll` base-16 decode lies in `[0, 2^63)`. -/
theorem decodeHex_range {t : String} {v : Int} (h : decodeHex t = .ok v) :
    0 ≤ v ∧ v < 2 ^ 63 := by
  unfold decodeHex at h
  split at h
  · simp at h
  · rename_i ds _
    simp only [] at h
    split at h
    · rename_i hlt
      injection h with h1
      subst h1
      constructor
      · exact Int.ofNat_nonneg _
      · exact_mod_cast hlt
    · simp at h

/-- The parser's mutual structural invariant: every node produced by a
successful `parseValue`/`parseArrayElems`/`parseObject`/`parseObjProps`
has strictly sorted Mapping keys and in-range numbers everywhere
(assuming the Constant Table's values do), and none of these functions
changes the Constant Table. -/

theorem parseMutual_wf : ∀ fuel : Nat,
    (∀ s v s1, parseValue fuel s = .ok (v, s1) → propsValsWF s.consts = true →
       nodeWF v = true ∧ s1.consts = s.consts) ∧
    (∀ s vs s1, parseArrayElems fuel s = .ok (vs, s1) → propsValsWF s.consts = true →
       elemsWF vs = true ∧ s1.consts = s.consts) ∧
    (∀ s v s1, parseObject fuel s = .ok (v, s1) → propsValsWF s.consts = true →
       nodeWF v = true ∧ s1.consts = s.consts) ∧
    (∀ acc s ps s1, parseObjProps fuel acc s = .ok (ps, s1) → propsValsWF s.consts = true →
       keysSortedB acc = true → propsValsWF acc = true →
       (keysSortedB ps = true ∧ propsValsWF ps = true) ∧ s1.consts = s.consts) := by
  intro fuel
  induction fuel with
  | zero =>
    refine ⟨?_, ?_, ?_, ?_⟩
    · intro s v s1 h
      simp [parseValue] at h
    · intro s vs s1 h
      simp [parseArrayElems] at h
    · intro s v s1 h
      simp [parseObject] at h
    · intro acc s ps s1 h
      simp [parseObjProps] at h
  | succ fuel ih =>
    obtain ⟨ihV, ihA, ihO, ihP⟩ := ih
    refine ⟨?_, ?_, ?_, ?_⟩
    · -- parseValue
      intro s v s1 h hc
      unfold parseValue at h
      split at h
      · -- NUMBER
        split at h
        · simp at h
        · rename_i val hdec
          split at h
          · simp at h
          · rename_i s1' heat
            injection h with h2
            injection h2 with hv hs
            subst hv; subst hs
            refine ⟨?_, eat_consts heat⟩
            simp only [nodeWF, nodeSorted, numsOK, Bool.true_and, decide_eq_true_eq]
            exact decodeHex_range hdec
      · -- STRING
        split at h
        · split at h
          · simp at h
          · rename_i s1' heat
            injection h with h2
            injection h2 with hv hs
            subst hv; subst hs
            exact ⟨by simp [nodeWF, nodeSorted, numsOK], eat_consts heat⟩
        · split at h
          · simp at h
          · rename_i s1' heat
            injection h with h2
            injection h2 with hv hs
            subst hv; subst hs
            exact ⟨by simp [nodeWF, nodeSorted, numsOK], eat_consts heat⟩
      · -- HASH
        split at h
        · simp at h
        · rename_i s1' heat1
          split at h
          · simp at h
          · rename_i s2' heat2
            split at h
            · simp at h
            · rename_i elems s3' harr
              split at h
              · simp at h
              · rename_i s4' heat3
                injection h with h2
                injection h2 with hv hs
                subst hv; subst hs
                have hc2 : propsValsWF s2'.consts = true := by
                  rw [eat_consts heat2, eat_consts heat1]; exact hc
                obtain ⟨hew, hcs⟩ := ihA _ _ _ harr hc2
                refine ⟨?_, ?_⟩
                · simp only [elemsWF, Bool.and_eq_true] at hew
                  simp [nodeWF, nodeSorted, numsOK, hew.1, hew.2]
                · rw [eat_consts heat3, hcs, eat_consts heat2, eat_consts heat1]
      · -- QUESTION
        split at h
        · simp at h
        · rename_i s1' heat1
          split at h
          · simp at h
          · rename_i s2' heat2
            split at h
            · simp at h
            · rename_i s3' heat3
              split at h
              · simp at h
              · rename_i s4' heat4
                simp only [] at h
                split at h
                · simp at h
                · rename_i v' hlook
                  injection h with h2
                  injection h2 with hv hs
                  subst hv; subst hs
                  have hc4 : propsValsWF s4'.consts = true := by
                    rw [eat_consts heat4, eat_consts heat3, eat_consts heat2, eat_consts heat1]
                    exact hc
                  refine ⟨lookupConst_wf _ hlook hc4, ?_⟩
                  rw [eat_consts heat4, eat_consts heat3, eat_consts heat2, eat_consts heat1]
      · -- LBRACE
        exact ihO _ _ _ h hc
      · -- fallthrough
        simp at h
    · -- parseArrayElems
      intro s vs s1 h hc
      unfold parseArrayElems at h
      split at h
      · split at h
        · simp at h
        · rename_i v s1' hval
          split at h
          · simp at h
          · rename_i vs' s2' harr
            injection h with h2
            injection h2 with hv hs
            subst hv; subst hs
            obtain ⟨hw, hcs1⟩ := ihV _ _ _ hval hc
            have hc1 : propsValsWF s1'.consts = true := by rw [hcs1]; exact hc
            obtain ⟨hew, hcs2⟩ := ihA _ _ _ harr hc1
            refine ⟨?_, by rw [hcs2, hcs1]⟩
            simp only [nodeWF, Bool.and_eq_true] at hw
            simp only [elemsWF, Bool.and_eq_true] at hew
            simp [elemsWF, nodesSorted, listNumsOK, hw.1, hw.2, hew.1, hew.2]
      · injection h with h2
        injection h2 with hv hs
        subst hv; subst hs
        exact ⟨by simp [elemsWF, nodesSorted, listNumsOK], rfl⟩
    · -- parseObject
      intro s v s1 h hc
      unfold parseObject at h
      split at h
      · simp at h
      · rename_i s1' heat1
        split at h
        · simp at h
        · rename_i props s2' hprops
          split at h
          · simp at h
          · rename_i s3' heat2
            injection h with h2
            injection h2 with hv hs
            subst hv; subst hs
            have hc1 : propsValsWF s1'.consts = true := by rw [eat_consts heat1]; exact hc
            obtain ⟨⟨hks, hvw⟩, hcs⟩ :=
              ihP _ _ _ _ hprops hc1 rfl rfl
            refine ⟨?_, by rw [eat_consts heat2, hcs, eat_consts heat1]⟩
            simp only [propsValsWF, Bool.and_eq_true] at hvw
            simp [nodeWF, nodeSorted, numsOK, hks, hvw.1, hvw.2]
    · -- parseObjProps
      intro acc s ps s1 h hc hks hvw
      unfold parseObjProps at h
      split at h
      · split at h
        · split at h
          · simp at h
          · rename_i s1' heat1
            split at h
            · simp at h
            · rename_i s2' heat2
              split at h
              · simp at h
              · rename_i v s3' hval
                simp only [] at h
                have hc2 : propsValsWF s2'.consts = true := by
                  rw [eat_consts heat2, eat_consts heat1]; exact hc
                obtain ⟨hw, hcs3⟩ := ihV _ _ _ hval hc2
                have hc3 : propsValsWF s3'.consts = true := by
                  rw [hcs3]; exact hc2
                obtain ⟨hres, hcs⟩ :=
                  ihP _ _ _ _ h hc3
                    (mapInsert_sorted acc hks) (mapInsert_valsWF acc hvw hw)
                refine ⟨hres, ?_⟩
                rw [hcs, hcs3, eat_consts heat2, eat_consts heat1]
        · simp at h
      · injection h with h2
        injection h2 with hv hs
        subst hv; subst hs
        exact ⟨⟨hks, hvw⟩, rfl⟩

theorem parseTop_wf : ∀ (fuel : Nat) rootProps s ps s1,
    parseTop fuel rootProps s = .ok (ps, s1) →
    propsValsWF s.consts = true → keysSortedB rootProps = true → propsValsWF rootProps = true →
    keysSortedB ps = true ∧ propsValsWF ps = true := by
  intro fuel
  induction fuel with
  | zero =>
    intro rootProps s ps s1 h
    simp [parseTop] at h
  | succ fuel ih =>
    intro rootProps s ps s1 h hc hks hvw
    obtain ⟨ihV, ihA, ihO, ihP⟩ := parseMutual_wf fuel
    unfold parseTop at h
    split at h
    · split at h
      · -- GLOBAL
        split at h
        · simp at h
        · rename_i s1' heat1
          simp only [] at h
          split at h
          · simp at h
          · rename_i s2' heat2
            split at h
            · simp at h
            · rename_i s3' heat3
              split at h
              · simp at h
              · rename_i v s4' hval
                have hc3 : propsValsWF s3'.consts = true := by
                  rw [eat_consts heat3, eat_consts heat2, eat_consts heat1]; exact hc
                obtain ⟨hw, hcs4⟩ := ihV _ _ _ hval hc3
                refine ih _ _ _ _ h ?_ hks hvw
                simp only []
                exact mapInsert_valsWF _ (by rw [hcs4]; exact hc3) hw
      · split at h
        · -- IDENTIFIER
          simp only [] at h
          split at h
          · simp at h
          · rename_i s1' heat1
            split at h
            · simp at h
            · rename_i s2' heat2
              split at h
              · simp at h
              · rename_i v s3' hval
                have hc2 : propsValsWF s2'.consts = true := by
                  rw [eat_consts heat2, eat_consts heat1]; exact hc
                obtain ⟨hw, hcs3⟩ := ihV _ _ _ hval hc2
                exact ih _ _ _ _ h (by rw [hcs3]; exact hc2)
                  (mapInsert_sorted _ hks) (mapInsert_valsWF _ hvw hw)
        · split at h
          · -- LBRACE
            split at h
            · simp at h
            · rename_i objNode s1' hobj
              obtain ⟨hw, hcs1⟩ := ihO _ _ _ hobj hc
              exact ih _ _ _ _ h (by rw [hcs1]; exact hc)
                (mapInsert_sorted _ hks) (mapInsert_valsWF _ hvw hw)
          · simp at h
    · injection h with h2
      injection h2 with hv hs
      subst hv
      exact ⟨hks, hvw⟩

/-- Every successfully parsed root is an object with strictly sorted keys
and in-range numbers at every depth. -/
theorem parse_wf : ∀ (fuel : Nat) (input : String) (root : Node),
    parse fuel input = .ok root → nodeSorted root = true ∧ numsOK root = true := by
  intro fuel input root h
  unfold parse at h
  split at h
  · simp at h
  · rename_i ps s1 htop
    injection h with hv
    subst hv
    have := parseTop_wf fuel [] (initState input) ps s1 htop (by rfl) (by rfl) (by rfl)
    obtain ⟨hks, hvw⟩ := this
    simp only [propsValsWF, Bool.and_eq_true] at hvw
    exact ⟨by simp [nodeSorted, hks, hvw.1], by simp [numsOK, hvw.2]⟩

/-- No value-level parsing function ever changes the Constant Table:
entries are added only by the top-level loop of `Parser::parse`. -/

theorem parseConsts : ∀ fuel : Nat,
    (∀ s v s1, parseValue fuel s = .ok (v, s1) → s1.consts = s.consts) ∧
    (∀ s vs s1, parseArrayElems fuel s = .ok (vs, s1) → s1.consts = s.consts) ∧
    (∀ s v s1, parseObject fuel s = .ok (v, s1) → s1.consts = s.consts) ∧
    (∀ acc s ps s1, parseObjProps fuel acc s = .ok (ps, s1) → s1.consts = s.consts) := by
  intro fuel
  induction fuel with
  | zero =>
    refine ⟨?_, ?_, ?_, ?_⟩
    · intro s v s1 h
      simp [parseValue] at h
    · intro s vs s1 h
      simp [parseArrayElems] at h
    · intro s v s1 h
      simp [parseObject] at h
    · intro acc s ps s1 h
      simp [parseObjProps] at h
  | succ fuel ih =>
    obtain ⟨ihV, ihA, ihO, ihP⟩ := ih
    refine ⟨?_, ?_, ?_, ?_⟩
    · intro s v s1 h
      unfold parseValue at h
      split at h
      · split at h
        · simp at h
        · rename_i val hdec
          split at h
          · simp at h
          · rename_i s1' heat
            injection h with h2
            injection h2 with hv hs
            subst hv; subst hs
            exact eat_consts heat
      · split at h
        · split at h
          · simp at h
          · rename_i s1' heat
            injection h with h2
            injection h2 with hv hs
            subst hv; subst hs
            exact eat_consts heat
        · split at h
          · simp at h
          · rename_i s1' heat
            injection h with h2
            injection h2 with hv hs
            subst hv; subst hs
            exact eat_consts heat
      · split at h
        · simp at h
        · rename_i s1' heat1
          split at h
          · simp at h
          · rename_i s2' heat2
            split at h
            · simp at h
            · rename_i elems s3' harr
              split at h
              · simp at h
              · rename_i s4' heat3
                injection h with h2
                injection h2 with hv hs
                subst hv; subst hs
                rw [eat_consts heat3, ihA _ _ _ harr, eat_consts heat2, eat_consts heat1]
      · split at h
        · simp at h
        · rename_i s1' heat1
          split at h
          · simp at h
          · rename_i s2' heat2
            split at h
            · simp at h
            · rename_i s3' heat3
              split at h
              · simp at h
              · rename_i s4' heat4
                simp only [] at h
                split at h
                · simp at h
                · rename_i v' hlook
                  injection h with h2
                  injection h2 with hv hs
                  subst hv; subst hs
                  rw [eat_consts heat4, eat_consts heat3, eat_consts heat2, eat_consts heat1]
      · exact ihO _ _ _ h
      · simp at h
    · intro s vs s1 h
      unfold parseArrayElems at h
      split at h
      · split at h
        · simp at h
        · rename_i v s1' hval
          split at h
          · simp at h
          · rename_i vs' s2' harr
            injection h with h2
            injection h2 with hv hs
            subst hv; subst hs
            rw [ihA _ _ _ harr, ihV _ _ _ hval]
      · injection h with h2
        injection h2 with hv hs
        subst hv; subst hs
        rfl
    · intro s v s1 h
      unfold parseObject at h
      split at h
      · simp at h
      · rename_i s1' heat1
        split at h
        · simp at h
        · rename_i props s2' hprops
          split at h
          · simp at h
          · rename_i s3' heat2
            injection h with h2
            injection h2 with hv hs
            subst hv; subst hs
            rw [eat_consts heat2, ihP _ _ _ _ hprops, eat_consts heat1]
    · intro acc s ps s1 h
      unfold parseObjProps at h
      split at h
      · split at h
        · split at h
          · simp at h
          · rename_i s1' heat1
            split at h
            · simp at h
            · rename_i s2' heat2
              split at h
              · simp at h
              · rename_i v s3' hval
                simp only [] at h
                rw [ihP _ _ _ _ h, ihV _ _ _ hval, eat_consts heat2, eat_consts heat1]
        · simp at h
      · injection h with h2
        injection h2 with hv hs
        subst hv; subst hs
        rfl

theorem skipWs_length : ∀ (cs : List Char) (l c : Nat),
    (skipWs cs l c).rest.length ≤ cs.length := by
  intro cs
  induction cs with
  | nil => intro l c; simp [skipWs]
  | cons ch r ih =>
    intro l c
    unfold skipWs
    split
    · split
      · exact le_trans (ih (l + 1) 1) (by simp)
      · exact le_trans (ih l (c + 1)) (by simp)
    · simp

theorem scanWhile_length (p : Char → Bool) : ∀ (cs : List Char) (l c : Nat),
    (scanWhile p cs l c).2.rest.length ≤ cs.length := by
  intro cs
  induction cs with
  | nil => intro l c; simp [scanWhile]
  | cons ch r ih =>
    intro l c
    unfold scanWhile
    split
    · split
      · exact le_trans (ih (l + 1) 1) (by simp)
      · exact le_trans (ih l (c + 1)) (by simp)
    · simp

/-- Every character collected by a scan satisfies the scanned predicate. -/
theorem scanWhile_all (p : Char → Bool) : ∀ (cs : List Char) (l c : Nat),
    ∀ x ∈ (scanWhile p cs l c).1, p x = true := by
  intro cs
  induction cs with
  | nil => intro l c x hx; simp [scanWhile] at hx
  | cons ch r ih =>
    intro l c x hx
    unfold scanWhile at hx
    split at hx
    · rename_i hp
      simp only [List.mem_cons] at hx
      rcases hx with rfl | hx
      · exact hp
      · split at hx
        · exact ih (l + 1) 1 x hx
        · exact ih l (c + 1) x hx
    · simp at hx

/-- A scan over `good ++ rest`, where every character of `good` satisfies
`p` and `rest` is empty or starts with a character refuting `p`, collects
exactly `good` and leaves exactly `rest`. -/
theorem scanWhile_spec (p : Char → Bool) : ∀ (good rest : List Char) (l c : Nat),
    (∀ x ∈ good, p x = true) →
    (match rest with | [] => True | r :: _ => p r = false) →
    (scanWhile p (good ++ rest) l c).1 = good ∧
    (scanWhile p (good ++ rest) l c).2.rest = rest := by
  intro good
  induction good with
  | nil =>
    intro rest l c _ hstop
    match rest with
    | [] => simp [scanWhile]
    | r :: rs =>
      simp only [List.nil_append]
      unfold scanWhile
      rw [if_neg (by simp [hstop])]
      exact ⟨rfl, rfl⟩
  | cons g gs ih =>
    intro rest l c hall hstop
    have hg : p g = true := hall g (by simp)
    simp only [List.cons_append]
    unfold scanWhile
    rw [if_pos hg]
    split
    · have := ih rest (l + 1) 1 (fun x hx => hall x (by simp [hx])) hstop
      simp [this.1, this.2]
    · have := ih rest l (c + 1) (fun x hx => hall x (by simp [hx])) hstop
      simp [this.1, this.2]

theorem advanceChar_rest {s : LexState} {c : Char} {r : List Char} (h : s.rest = c :: r) :
    (advanceChar s).rest = r := by
  obtain ⟨rest, line, col⟩ := s
  simp only [] at h
  subst h
  simp only [advanceChar]
  split <;> rfl

/-- Skipping whitespace does nothing when the first character is not
whitespace. -/
theorem skipWs_nospace {ch : Char} {r : List Char} {l c : Nat} (h : isSpaceC ch = false) :
    skipWs (ch :: r) l c = ⟨ch :: r, l, c⟩ := by
  unfold skipWs
  rw [if_neg (by simp [h])]

theorem advanceChar_le (s : LexState) : (advanceChar s).rest.length ≤ s.rest.length := by
  unfold advanceChar
  split
  · exact le_refl _
  · split <;> simp_all

theorem scanWhile_cons_le (p : Char → Bool) {ch : Char} (r : List Char) (l c : Nat)
    (hp : p ch = true) : (scanWhile p (ch :: r) l c).2.rest.length ≤ r.length := by
  unfold scanWhile
  rw [if_pos hp]
  simp only []
  split
  · exact scanWhile_length p r (l + 1) 1
  · exact scanWhile_length p r l (c + 1)

set_option maxHeartbeats 1000000 in
/-- `nextToken` makes progress: it returns END, or it strictly shrinks the
remaining input; repeated calls therefore reach END, and no call fails. -/
theorem nextToken_progress (st : LexState) :
    (nextToken st).1.type = TokenType.EOF_TOKEN ∨
      (nextToken st).2.rest.length < st.rest.length := by
  obtain ⟨rest0, l0, c0⟩ := st
  have hle := skipWs_length rest0 l0 c0
  unfold nextToken
  simp only []
  split
  · left; rfl
  · rename_i c r heq
    right
    generalize hsk : skipWs rest0 l0 c0 = sk at heq hle ⊢
    obtain ⟨skr, skl, skc⟩ := sk
    simp only [] at heq hle ⊢
    subst heq
    simp only [List.length_cons] at hle
    have hres : (advanceChar ⟨c :: r, skl, skc⟩).rest = r := advanceChar_rest rfl
    cases r with
    | nil =>
      change ((if (c == '0' && false) = true then _ else _ :
        Token × LexState)).2.rest.length < rest0.length
      rw [Bool.and_false]
      rw [if_neg (by simp)]
      by_cases hA : isAlphaC c = true
      · rw [if_pos hA]
        have hb : (scanWhile (fun ch => isAlnumC ch || ch == '_') [c] skl skc).2.rest.length
            ≤ List.length [] := scanWhile_cons_le _ [] _ _ (by simp [isAlnumC, hA])
        repeat' split
        all_goals refine lt_of_le_of_lt hb ?_
        all_goals omega
      · rw [if_neg hA]
        by_cases hq : (c == '\"') = true
        · rw [if_pos hq]
          simp only []
          have hsc := scanWhile_length (fun ch => !(ch == '\"') && !(ch == '\x00'))
            (advanceChar ⟨[c], skl, skc⟩).rest
            (advanceChar ⟨[c], skl, skc⟩).line
            (advanceChar ⟨[c], skl, skc⟩).col
          have hsc2 := le_trans hsc (le_of_eq (congrArg List.length hres))
          split
          · refine lt_of_le_of_lt (le_trans (advanceChar_le _) hsc2) ?_
            omega
          · refine lt_of_le_of_lt hsc2 ?_
            omega
        · rw [if_neg hq]
          repeat' split
          all_goals exact lt_of_le_of_lt (le_of_eq (congrArg List.length hres)) (by omega)
    | cons x r2 =>
      change ((if (c == '0' && (x == 'x' || x == 'X')) = true then _ else _ :
        Token × LexState)).2.rest.length < rest0.length
      simp only [List.length_cons] at hle
      by_cases hn : (c == '0' && (x == 'x' || x == 'X')) = true
      · rw [if_pos hn]
        simp only []
        have h2 : (advanceChar (advanceChar ⟨c :: x :: r2, skl, skc⟩)).rest = r2 :=
          advanceChar_rest hres
        refine lt_of_le_of_lt (scanWhile_length _ _ _ _) ?_
        rw [h2]
        omega
      · rw [if_neg hn]
        by_cases hA : isAlphaC c = true
        · rw [if_pos hA]
          have hb : (scanWhile (fun ch => isAlnumC ch || ch == '_')
              (c :: x :: r2) skl skc).2.rest.length ≤ (x :: r2).length :=
            scanWhile_cons_le _ (x :: r2) _ _ (by simp [isAlnumC, hA])
          repeat' split
          all_goals refine lt_of_le_of_lt hb ?_
          all_goals simp only [List.length_cons]
          all_goals omega
        · rw [if_neg hA]
          by_cases hq : (c == '\"') = true
          · rw [if_pos hq]
            simp only []
            have hsc := scanWhile_length (fun ch => !(ch == '\"') && !(ch == '\x00'))
              (advanceChar ⟨c :: x :: r2, skl, skc⟩).rest
              (advanceChar ⟨c :: x :: r2, skl, skc⟩).line
              (advanceChar ⟨c :: x :: r2, skl, skc⟩).col
            have hsc2 := le_trans hsc (le_of_eq (congrArg List.length hres))
            split
            · refine lt_of_le_of_lt (le_trans (advanceChar_le _) hsc2) ?_
              simp only [List.length_cons]
              omega
            · refine lt_of_le_of_lt hsc2 ?_
              simp only [List.length_cons]
              omega
          · rw [if_neg hq]
            repeat' split
            all_goals refine lt_of_le_of_lt (le_of_eq (congrArg List.length hres)) ?_
            all_goals simp only [List.length_cons]
            all_goals omega

/-- On input `"` followed by `cs` with no closing quote (and no quote and
no NUL inside `cs`), `nextToken` silently consumes to end of input and
still returns a STRING token holding `cs` verbatim. -/
theorem nextToken_string_unterminated (cs : List Char) (l c : Nat)
    (h : ∀ x ∈ cs, (x == '\"') = false ∧ (x == '\x00') = false) :
    (nextToken ⟨'\"' :: cs, l, c⟩).1.type = TokenType.STRING ∧
    (nextToken ⟨'\"' :: cs, l, c⟩).1.value = String.mk cs ∧
    (nextToken ⟨'\"' :: cs, l, c⟩).2.rest = [] := by
  have hspec := scanWhile_spec (fun ch => !(ch == '\"') && !(ch == '\x00')) cs [] l (c + 1)
    (fun x hx => by simp [(h x hx).1, (h x hx).2]) trivial
  rw [List.append_nil] at hspec
  have hnt : nextToken ⟨'\"' :: cs, l, c⟩ =
      (⟨.STRING, String.mk cs, l, c⟩,
        (scanWhile (fun ch => !(ch == '\"') && !(ch == '\x00')) cs l (c + 1)).2) := by
    unfold nextToken
    rw [skipWs_nospace (by decide)]
    simp only []
    rw [show ('\"' == '0') = false from by decide, Bool.false_and]
    rw [if_neg (by simp)]
    rw [if_neg (by decide)]
    rw [if_pos (by decide)]
    have hadv : advanceChar ⟨'\"' :: cs, l, c⟩ = ⟨cs, l, c + 1⟩ := by
      simp [advanceChar]
    rw [hadv]
    rw [hspec.1, hspec.2]
  rw [hnt]
  exact ⟨rfl, rfl, hspec.2⟩

/-- On input `"` followed by `cs`, a closing `"` and `rest` (no quote and
no NUL inside `cs`), `nextToken` returns a STRING token holding `cs`
verbatim — no escape processing — and consumes through the closing
quote, leaving exactly `rest`. -/
theorem nextToken_string_terminated (cs rest : List Char) (l c : Nat)
    (h : ∀ x ∈ cs, (x == '\"') = false ∧ (x == '\x00') = false) :
    (nextToken ⟨'\"' :: (cs ++ '\"' :: rest), l, c⟩).1.type = TokenType.STRING ∧
    (nextToken ⟨'\"' :: (cs ++ '\"' :: rest), l, c⟩).1.value = String.mk cs ∧
    (nextToken ⟨'\"' :: (cs ++ '\"' :: rest), l, c⟩).2.rest = rest := by
  have hspec := scanWhile_spec (fun ch => !(ch == '\"') && !(ch == '\x00'))
    cs ('\"' :: rest) l (c + 1)
    (fun x hx => by simp [(h x hx).1, (h x hx).2])
    (by change (fun ch => !(ch == '\"') && !(ch == '\x00')) '\"' = false
        decide)
  have hnt : nextToken ⟨'\"' :: (cs ++ '\"' :: rest), l, c⟩ =
      (⟨.STRING, String.mk cs, l, c⟩,
        advanceChar (scanWhile (fun ch => !(ch == '\"') && !(ch == '\x00'))
          (cs ++ '\"' :: rest) l (c + 1)).2) := by
    unfold nextToken
    rw [skipWs_nospace (by decide)]
    simp only []
    rw [show ('\"' == '0') = false from by decide, Bool.false_and]
    rw [if_neg (by simp)]
    rw [if_neg (by decide)]
    rw [if_pos (by decide)]
    have hadv : advanceChar ⟨'\"' :: (cs ++ '\"' :: rest), l, c⟩ =
        ⟨cs ++ '\"' :: rest, l, c + 1⟩ := by
      simp [advanceChar]
    rw [hadv]
    rw [hspec.1, hspec.2]
    rfl
  rw [hnt]
  exact ⟨rfl, rfl, advanceChar_rest hspec.2⟩

/-- On input `"` followed by `cs`, an embedded NUL and `rest` (no quote
and no NUL inside `cs`), the scan stops at the NUL before any later
quote: the STRING token holds only `cs`, and the NUL is left unconsumed
in the input. -/
theorem nextToken_string_nul (cs rest : List Char) (l c : Nat)
    (h : ∀ x ∈ cs, (x == '\"') = false ∧ (x == '\x00') = false) :
    (nextToken ⟨'\"' :: (cs ++ '\x00' :: rest), l, c⟩).1.type = TokenType.STRING ∧
    (nextToken ⟨'\"' :: (cs ++ '\x00' :: rest), l, c⟩).1.value = String.mk cs ∧
    (nextToken ⟨'\"' :: (cs ++ '\x00' :: rest), l, c⟩).2.rest = '\x00' :: rest := by
  have hspec := scanWhile_spec (fun ch => !(ch == '\"') && !(ch == '\x00'))
    cs ('\x00' :: rest) l (c + 1)
    (fun x hx => by simp [(h x hx).1, (h x hx).2])
    (by change (fun ch => !(ch == '\"') && !(ch == '\x00')) '\x00' = false
        decide)
  have hnt : nextToken ⟨'\"' :: (cs ++ '\x00' :: rest), l, c⟩ =
      (⟨.STRING, String.mk cs, l, c⟩,
        (scanWhile (fun ch => !(ch == '\"') && !(ch == '\x00'))
          (cs ++ '\x00' :: rest) l (c + 1)).2) := by
    unfold nextToken
    rw [skipWs_nospace (by decide)]
    simp only []
    rw [show ('\"' == '0') = false from by decide, Bool.false_and]
    rw [if_neg (by simp)]
    rw [if_neg (by decide)]
    rw [if_pos (by decide)]
    have hadv : advanceChar ⟨'\"' :: (cs ++ '\x00' :: rest), l, c⟩ =
        ⟨cs ++ '\x00' :: rest, l, c + 1⟩ := by
      simp [advanceChar]
    rw [hadv]
    rw [hspec.1, hspec.2]
    rfl
  rw [hnt]
  exact ⟨rfl, rfl, hspec.2⟩

/-- A `0x`/`0X` introducer yields a NUMBER token whose text is the
following maximal hex-digit run, prefix stripped: every character of the
token text is a hex digit (there is no sign syntax). -/
theorem nextToken_number (rest : List Char) (x : Char) (l c : Nat)
    (hx : (x == 'x' || x == 'X') = true) :
    (nextToken ⟨'0' :: x :: rest, l, c⟩).1.type = TokenType.NUMBER ∧
    ∀ ch ∈ (nextToken ⟨'0' :: x :: rest, l, c⟩).1.value.data, isHexDigit ch = true := by
  have hx2 : x = 'x' ∨ x = 'X' := by
    rcases Bool.or_eq_true_iff.mp hx with h1 | h1
    · exact Or.inl (by simpa using h1)
    · exact Or.inr (by simpa using h1)
  rcases hx2 with rfl | rfl
  · have hnt : nextToken ⟨'0' :: 'x' :: rest, l, c⟩ =
        (⟨.NUMBER, String.mk (scanWhile isHexDigit rest l (c + 2)).1, l, c⟩,
          (scanWhile isHexDigit rest l (c + 2)).2) := by
      unfold nextToken
      rw [skipWs_nospace (by decide)]
      simp only []
      rw [if_pos (by change ('0' == '0' && ('x' == 'x' || 'x' == 'X')) = true; decide)]
      have ha1 : advanceChar ⟨'0' :: 'x' :: rest, l, c⟩ = ⟨'x' :: rest, l, c + 1⟩ := by
        simp [advanceChar]
      have ha2 : advanceChar ⟨'x' :: rest, l, c + 1⟩ = ⟨rest, l, c + 2⟩ := by
        simp [advanceChar]
      rw [ha1, ha2]
    rw [hnt]
    exact ⟨rfl, fun ch hch => scanWhile_all isHexDigit rest l (c + 2) ch hch⟩
  · have hnt : nextToken ⟨'0' :: 'X' :: rest, l, c⟩ =
        (⟨.NUMBER, String.mk (scanWhile isHexDigit rest l (c + 2)).1, l, c⟩,
          (scanWhile isHexDigit rest l (c + 2)).2) := by
      unfold nextToken
      rw [skipWs_nospace (by decide)]
      simp only []
      rw [if_pos (by change ('0' == '0' && ('X' == 'x' || 'X' == 'X')) = true; decide)]
      have ha1 : advanceChar ⟨'0' :: 'X' :: rest, l, c⟩ = ⟨'X' :: rest, l, c + 1⟩ := by
        simp [advanceChar]
      have ha2 : advanceChar ⟨'X' :: rest, l, c + 1⟩ = ⟨rest, l, c + 2⟩ := by
        simp [advanceChar]
      rw [ha1, ha2]
    rw [hnt]
    exact ⟨rfl, fun ch hch => scanWhile_all isHexDigit rest l (c + 2) ch hch⟩

/-- `eat` succeeds only when the lookahead has the expected kind. -/
theorem eat_ok_type {t : TokenType} {s s1 : PState} (h : eat t s = .ok s1) :
    s.cur.type = t := by
  unfold eat at h
  split at h
  · rename_i hc
    exact beq_iff_eq.mp hc
  · simp at h

/-- The `?[NAME]` branch of `parseValue`: after the four token
consumptions, NAME (the token text read between the brackets) is looked
up in the Constant Table as it stands at that point; an absent NAME is
the UnknownConstant error, a present NAME yields exactly the node stored
in the table, shared rather than copied. -/
theorem parseValue_constRef (fuel : Nat) (s s1 s2 s3 s4 : PState)
    (h1 : eat .QUESTION s = .ok s1) (h2 : eat .LBRACKET s1 = .ok s2)
    (h3 : eat .IDENTIFIER s2 = .ok s3) (h4 : eat .RBRACKET s3 = .ok s4) :
    parseValue (fuel + 1) s =
      (match lookupConst s2.cur.value s.consts with
        | none => .error (.unknownConstant s2.cur.value)
        | some v => .ok (v, s4)) := by
  have htype : s.cur.type = TokenType.QUESTION := eat_ok_type h1
  have hcs : s4.consts = s.consts := by
    rw [eat_consts h4, eat_consts h3, eat_consts h2, eat_consts h1]
  unfold parseValue
  split
  · rename_i heq; rw [htype] at heq; cases heq
  · rename_i heq; rw [htype] at heq; cases heq
  · rename_i heq; rw [htype] at heq; cases heq
  · -- QUESTION
    split
    · rename_i e heq
      rw [h1] at heq; cases heq
    · rename_i s1' heq
      rw [h1] at heq
      injection heq with heq1
      subst heq1
      split
      · rename_i e heq
        rw [h2] at heq; cases heq
      · rename_i s2' heq
        rw [h2] at heq
        injection heq with heq1
        subst heq1
        simp only []
        split
        · rename_i e heq
          rw [h3] at heq; cases heq
        · rename_i s3' heq
          rw [h3] at heq
          injection heq with heq1
          subst heq1
          split
          · rename_i e heq
            rw [h4] at heq; cases heq
          · rename_i s4' heq
            rw [h4] at heq
            injection heq with heq1
            subst heq1
            rw [hcs]
  · rename_i heq; rw [htype] at heq; cases heq
  · rename_i heq _
    rw [htype] at heq
    simp at heq

/-- The NUMBER branch of `parseValue` on a decodable literal: the token
text is decoded by `stoll` in base 16 and becomes a Number node, and the
parser advances one token. -/
theorem parseValue_number_ok (fuel : Nat) (s : PState) (v : Int)
    (htype : s.cur.type = TokenType.NUMBER) (hdec : decodeHex s.cur.value = .ok v) :
    parseValue (fuel + 1) s =
      .ok (Node.num v,
        { s with lex := (nextToken s.lex).2, cur := (nextToken s.lex).1 }) := by
  have heat : eat .NUMBER s =
      .ok { s with lex := (nextToken s.lex).2, cur := (nextToken s.lex).1 } := by
    unfold eat
    rw [if_pos (by simp [htype])]
  unfold parseValue
  split
  · -- NUMBER
    split
    · rename_i e heq
      rw [hdec] at heq; cases heq
    · rename_i v' heq
      rw [hdec] at heq
      injection heq with heq1
      subst heq1
      split
      · rename_i e heq
        rw [heat] at heq; cases heq
      · rename_i s1' heq
        rw [heat] at heq
        injection heq with heq1
        subst heq1
        rfl
  · rename_i heq; rw [htype] at heq; cases heq
  · rename_i heq; rw [htype] at heq; cases heq
  · rename_i heq; rw [htype] at heq; cases heq
  · rename_i heq; rw [htype] at heq; cases heq
  · rename_i hNum hStr hHash hBrace hT
    exact absurd htype hNum

/-- The NUMBER branch of `parseValue` on an out-of-range literal: the
`std::out_of_range` thrown by `stoll` (the spec's NumericOverflow) aborts
the parse before any node is built. -/
theorem parseValue_number_overflow (fuel : Nat) (s : PState)
    (htype : s.cur.type = TokenType.NUMBER)
    (hdec : decodeHex s.cur.value = .error .stdOutOfRange) :
    parseValue (fuel + 1) s = .error .stdOutOfRange := by
  unfold parseValue
  split
  · split
    · rename_i e heq
      rw [hdec] at heq
      injection heq with heq1
      subst heq1
      rfl
    · rename_i v' heq
      rw [hdec] at heq; cases heq
  · rename_i heq; rw [htype] at heq; cases heq
  · rename_i heq; rw [htype] at heq; cases heq
  · rename_i heq; rw [htype] at heq; cases heq
  · rename_i heq; rw [htype] at heq; cases heq
  · rename_i hNum hStr hHash hBrace hT
    exact absurd htype hNum

/-- The STRING branch of `parseValue`: text exactly `true` or `false`
(whether it came from the bare reserved word or a quoted literal) becomes
a Boolean node; any other text becomes a Text node holding the literal
text unchanged. -/
theorem parseValue_string_shape (fuel : Nat) (s : PState) (v : Node) (s1 : PState)
    (h : parseValue (fuel + 1) s = .ok (v, s1)) (htype : s.cur.type = TokenType.STRING) :
    v = (if s.cur.value = "true" then Node.bool true
         else if s.cur.value = "false" then Node.bool false
         else Node.str s.cur.value) := by
  unfold parseValue at h
  split at h
  · rename_i heq; rw [htype] at heq; cases heq
  · -- STRING
    split at h
    · rename_i hcond
      split at h
      · simp at h
      · injection h with h2
        injection h2 with hv hs
        subst hv
        rcases Bool.or_eq_true_iff.mp hcond with h1 | h1
        · have : s.cur.value = "true" := by simpa using h1
          simp [this]
        · have : s.cur.value = "false" := by simpa using h1
          have hne : s.cur.value ≠ "true" := by simp [this]
          simp [this, hne]
    · rename_i hcond
      split at h
      · simp at h
      · injection h with h2
        injection h2 with hv hs
        subst hv
        have h1 : s.cur.value ≠ "true" := by
          intro hh
          exact absurd (by simp [hh] : (s.cur.value == "true" || s.cur.value == "false") = true) hcond
        have h2 : s.cur.value ≠ "false" := by
          intro hh
          exact absurd (by simp [hh] : (s.cur.value == "true" || s.cur.value == "false") = true) hcond
        simp [h1, h2]
  · rename_i heq; rw [htype] at heq; cases heq
  · rename_i heq; rw [htype] at heq; cases heq
  · rename_i heq; rw [htype] at heq; cases heq
  · rename_i hNum hStr hHash hBrace hT
    exact absurd htype hStr

/-- The sorted-map invariant, restated: walking the property list
front-to-back (as the serializer's loop does) visits keys in strictly
increasing lexicographic order. -/
theorem keysSortedB_chain :
    ∀ ps, keysSortedB ps = true → List.Chain' (fun a b : String × Node => a.1 < b.1) ps := by
  intro ps
  match ps with
  | [] => intro _; exact List.chain'_nil
  | [p] => intro _; exact List.chain'_singleton p
  | (k1, v1) :: (k2, v2) :: rest =>
    intro h
    simp only [keysSortedB, keyLB, Bool.and_eq_true] at h
    refine List.chain'_cons.mpr
      ⟨(strLt_iff k1 k2).mp h.1, keysSortedB_chain ((k2, v2) :: rest) ?_⟩
    simp only [keysSortedB, Bool.and_eq_true]
    exact h.2

/-- Strictly sorted keys are pairwise distinct: at most one entry per key
survives in a Mapping. -/
theorem keysSortedB_nodup (ps : List (String × Node)) (h : keysSortedB ps = true) :
    (ps.map Prod.fst).Nodup := by
  have hch := keysSortedB_chain ps h
  have htr : IsTrans (String × Node) (fun a b => a.1 < b.1) :=
    ⟨fun _ _ _ h1 h2 => lt_trans h1 h2⟩
  have hpw : List.Pairwise (fun a b : String × Node => a.1 < b.1) ps :=
    List.chain'_iff_pairwise.mp hch
  have : List.Pairwise (· < ·) (ps.map Prod.fst) := List.pairwise_map.mpr hpw
  exact this.imp ne_of_lt

/-- A `std::map` assignment on an existing or new key: a later lookup of
that key finds exactly the assigned value (last write wins). -/
theorem lookup_mapInsert (k : String) (v : Node) :
    ∀ ps, lookupConst k (mapInsert k v ps) = some v := by
  intro ps
  induction ps with
  | nil => simp [mapInsert, lookupConst]
  | cons p rest ih =>
    obtain ⟨k1, v1⟩ := p
    unfold mapInsert
    split
    · simp [lookupConst]
    · split
      · rename_i h1
        have hne : k1 ≠ k := ne_of_lt ((strLt_iff k1 k).mp h1)
        simp [lookupConst, hne, ih]
      · simp [lookupConst]

/-! ## The claims -/

/-- C1: serializing any Mapping of a successfully parsed input visits its
keys in lexicographic order regardless of declaration order: every
Mapping in the parsed tree keeps the sorted-map invariant, that invariant
means the entry list (walked front-to-back by the serializer) is in
strictly increasing key order, and in particular
`cfg = { zeta = 0x01 alpha = 0x02 }` parses to a root whose entry `cfg`
serializes with `"alpha": 2` before `"zeta": 1`. -/
theorem claim_C1 :
    (∀ fuel input root, parse fuel input = .ok root → nodeSorted root = true) ∧
    (∀ ps, keysSortedB ps = true →
      List.Chain' (fun a b : String × Node => a.1 < b.1) ps) ∧
    parse 100 "cfg = \x7b zeta = 0x01 alpha = 0x02 \x7d" =
      .ok (Node.obj [("cfg", Node.obj [("alpha", Node.num 2), ("zeta", Node.num 1)])]) ∧
    translateProgram 100 "cfg = \x7b zeta = 0x01 alpha = 0x02 \x7d" =
      .ok "\x7b\n  \"cfg\": \x7b\n    \"alpha\": 2,\n    \"zeta\": 1\n  \x7d\n\x7d" :=
  ⟨fun fuel input root h => (parse_wf fuel input root h).1,
   keysSortedB_chain,
   by rfl,
   by rfl⟩

/-- Witness for C1 at the concrete input of the claim. -/
theorem claim_C1_witness :
    nodeSorted (Node.obj [("cfg", Node.obj [("alpha", Node.num 2), ("zeta", Node.num 1)])])
      = true ∧
    List.Chain' (fun a b : String × Node => a.1 < b.1)
      [("alpha", Node.num 2), ("zeta", Node.num 1)] :=
  ⟨claim_C1.1 100 "cfg = \x7b zeta = 0x01 alpha = 0x02 \x7d"
      (Node.obj [("cfg", Node.obj [("alpha", Node.num 2), ("zeta", Node.num 1)])]) (by rfl),
   claim_C1.2.1 [("alpha", Node.num 2), ("zeta", Node.num 1)] (by rfl)⟩

/-- C2: a `?[NAME]` reference is resolved against the Constant Table as
it stands at that point in parsing: an absent NAME fails with
UnknownConstant and no tree is produced, a present NAME yields exactly
the node stored in the table (shared, not a copy); in particular
`global MAX = 0x10\nsize = ?[MAX]` serializes with `"size": 16`, and
`x = ?[UNDEFINED]` fails with UnknownConstant. -/
theorem claim_C2 :
    (∀ fuel s s1 s2 s3 s4,
      eat .QUESTION s = .ok s1 → eat .LBRACKET s1 = .ok s2 →
      eat .IDENTIFIER s2 = .ok s3 → eat .RBRACKET s3 = .ok s4 →
      parseValue (fuel + 1) s =
        (match lookupConst s2.cur.value s.consts with
          | none => .error (.unknownConstant s2.cur.value)
          | some v => .ok (v, s4))) ∧
    translateProgram 100 "global MAX = 0x10\nsize = ?[MAX]" = .ok "\x7b\n  \"size\": 16\n\x7d" ∧
    parse 100 "x = ?[UNDEFINED]" = .error (.unknownConstant "UNDEFINED") :=
  ⟨fun fuel s s1 s2 s3 s4 h1 h2 h3 h4 => parseValue_constRef fuel s s1 s2 s3 s4 h1 h2 h3 h4,
   by rfl,
   by rfl⟩

/-- Witness for C2: resolving `?[MAX]` in a state whose table binds MAX
to the Number node 16 yields that very node. -/
theorem claim_C2_witness :
    parseValue 5
      ⟨⟨"[MAX]".data, 1, 2⟩, ⟨.QUESTION, "?", 1, 1⟩, [("MAX", Node.num 16)]⟩ =
      .ok (Node.num 16, ⟨⟨[], 1, 7⟩, ⟨.EOF_TOKEN, "", 1, 7⟩, [("MAX", Node.num 16)]⟩) := by
  have h := claim_C2.1 4
    ⟨⟨"[MAX]".data, 1, 2⟩, ⟨.QUESTION, "?", 1, 1⟩, [("MAX", Node.num 16)]⟩
    ⟨⟨"MAX]".data, 1, 3⟩, ⟨.LBRACKET, "[", 1, 2⟩, [("MAX", Node.num 16)]⟩
    ⟨⟨"]".data, 1, 6⟩, ⟨.IDENTIFIER, "MAX", 1, 3⟩, [("MAX", Node.num 16)]⟩
    ⟨⟨([] : List Char), 1, 7⟩, ⟨.RBRACKET, "]", 1, 6⟩, [("MAX", Node.num 16)]⟩
    ⟨⟨([] : List Char), 1, 7⟩, ⟨.EOF_TOKEN, "", 1, 7⟩, [("MAX", Node.num 16)]⟩
    (by rfl) (by rfl) (by rfl) (by rfl)
  exact h.trans (by rfl)

/-- Counterexample to C3 as stated: in the parse of
`global A = 0x1\nglobal A = 0x2\nx = ?[A]`, the first declaration binds
A to `Node.num 1` (the run passes through a state whose Constant Table
is exactly `[("A", Node.num 1)]`), yet the later `?[A]` in the same
parse resolves to `Node.num 2`: the second `global A` overwrote the
binding, so entries can be shadowed. -/
theorem claim_C3_counterexample :
    ((((eat .GLOBAL
        (initState "global A = 0x1\nglobal A = 0x2\nx = ?[A]")).bind
          (eat .IDENTIFIER)).bind (eat .EQUALS)).bind (parseValue 99)) =
      .ok (Node.num 1,
        ⟨⟨" A = 0x2\nx = ?[A]".data, 2, 7⟩, ⟨.GLOBAL, "global", 2, 1⟩, []⟩) ∧
    mapInsert "A" (Node.num 1) [] = [("A", Node.num 1)] ∧
    lookupConst "A" [("A", Node.num 1)] = some (Node.num 1) ∧
    parseTop 100 [] (initState "global A = 0x1\nglobal A = 0x2\nx = ?[A]") =
      parseTop 99 []
        ⟨⟨" A = 0x2\nx = ?[A]".data, 2, 7⟩, ⟨.GLOBAL, "global", 2, 1⟩,
          [("A", Node.num 1)]⟩ ∧
    parse 100 "global A = 0x1\nglobal A = 0x2\nx = ?[A]" =
      .ok (Node.obj [("x", Node.num 2)]) ∧
    decide ((2 : Int) = 1) = false :=
  ⟨by rfl, by rfl, by rfl, by rfl, by rfl, by rfl⟩

/-- C3 as amended: Constant Table entries are added or replaced only by
top-level `global` declarations — no value-level parsing function ever
changes the table — and are never removed; a repeated `global NAME`
declaration overwrites the binding, so a `?[NAME]` reference resolves to
the most recently bound value at that point (and, absent re-declaration,
every later reference resolves to the originally bound value). -/
theorem claim_C3 :
    (∀ fuel s v s1, parseValue fuel s = .ok (v, s1) → s1.consts = s.consts) ∧
    (∀ k v ps, lookupConst k (mapInsert k v ps) = some v) ∧
    parse 100 "global A = 0x1\nglobal A = 0x2\nx = ?[A]" =
      .ok (Node.obj [("x", Node.num 2)]) ∧
    parse 100 "global A = 0x1\nx = ?[A]\ny = ?[A]" =
      .ok (Node.obj [("x", Node.num 1), ("y", Node.num 1)]) :=
  ⟨fun fuel s v s1 h => (parseConsts fuel).1 s v s1 h,
   fun k v ps => lookup_mapInsert k v ps,
   by rfl,
   by rfl⟩

/-- Witness for C3 at a concrete `parseValue` run. -/
theorem claim_C3_witness :
    (⟨⟨([] : List Char), 1, 7⟩, ⟨.EOF_TOKEN, "", 1, 7⟩,
        [("MAX", Node.num 16)]⟩ : PState).consts =
      (⟨⟨"[MAX]".data, 1, 2⟩, ⟨.QUESTION, "?", 1, 1⟩,
        [("MAX", Node.num 16)]⟩ : PState).consts :=
  claim_C3.1 5
    ⟨⟨"[MAX]".data, 1, 2⟩, ⟨.QUESTION, "?", 1, 1⟩, [("MAX", Node.num 16)]⟩
    (Node.num 16)
    ⟨⟨([] : List Char), 1, 7⟩, ⟨.EOF_TOKEN, "", 1, 7⟩, [("MAX", Node.num 16)]⟩
    (by rfl)

/-- Counterexample to C4 as stated: the successfully parsed input
`a = #( { b = 0x1 } )` contains a Sequence node whose serialization is
not a single line — the non-empty Mapping element serializes in the
multi-line object style, so the array's text contains newlines. -/
theorem claim_C4_counterexample :
    parse 100 "a = #( \x7b b = 0x1 \x7d )" =
      .ok (Node.obj [("a", Node.arr [Node.obj [("b", Node.num 1)]])]) ∧
    toJSON (Node.arr [Node.obj [("b", Node.num 1)]]) 0 = "[\x7b\n  \"b\": 1\n\x7d]" ∧
    "[\x7b\n  \"b\": 1\n\x7d]".data.contains '\n' = true :=
  ⟨by rfl, by rfl, by rfl⟩

/-- C4 as amended: serializing a Sequence always produces `[`, the
elements' serializations joined by `, `, then `]`, with every element
serialized at indent 0 whatever the surrounding indent; nested Sequences
therefore stay single-line, but a non-empty Mapping element serializes
in the multi-line Mapping style, so the bracketed text can span lines. -/
theorem claim_C4 :
    (∀ es ind, toJSON (Node.arr es) ind = "[" ++ arrJoin es ++ "]") ∧
    (∀ e1 e2 rest, arrJoin (e1 :: e2 :: rest) = toJSON e1 0 ++ ", " ++ arrJoin (e2 :: rest)) ∧
    (∀ e, arrJoin [e] = toJSON e 0) ∧
    toJSON (Node.arr [Node.arr [Node.num 1], Node.num 2]) 5 = "[[1], 2]" ∧
    "[[1], 2]".data.contains '\n' = false ∧
    toJSON (Node.arr [Node.obj [("b", Node.num 1)]]) 7 = "[\x7b\n  \"b\": 1\n\x7d]" :=
  ⟨fun es ind => by simp [toJSON],
   fun e1 e2 rest => by simp [arrJoin],
   fun e => by simp [arrJoin],
   by rfl,
   by rfl,
   by rfl⟩

/-- C5: a NUMBER token's digit text is decoded in base 16 into a signed
64-bit integer — any successful decode lies in the signed 64-bit range,
`port = 0x1A` serializes as `"port": 26` — and a literal whose magnitude
exceeds the range makes the parse fail with the fatal NumericOverflow
condition (`std::out_of_range` from `stoll`). -/
theorem claim_C5 :
    (∀ t v, decodeHex t = .ok v → 0 ≤ v ∧ v < 2 ^ 63) ∧
    (∀ fuel s v, s.cur.type = .NUMBER → decodeHex s.cur.value = .ok v →
      parseValue (fuel + 1) s =
        .ok (Node.num v, { s with lex := (nextToken s.lex).2, cur := (nextToken s.lex).1 })) ∧
    (∀ fuel s, s.cur.type = .NUMBER → decodeHex s.cur.value = .error .stdOutOfRange →
      parseValue (fuel + 1) s = .error .stdOutOfRange) ∧
    translateProgram 100 "port = 0x1A" = .ok "\x7b\n  \"port\": 26\n\x7d" ∧
    parse 100 "x = 0x8000000000000000" = .error .stdOutOfRange ∧
    parse 100 "x = 0x7FFFFFFFFFFFFFFF" =
      .ok (Node.obj [("x", Node.num 9223372036854775807)]) ∧
    (9223372036854775807 : Int) = 2 ^ 63 - 1 :=
  ⟨fun t v h => decodeHex_range h,
   fun fuel s v h1 h2 => parseValue_number_ok fuel s v h1 h2,
   fun fuel s h1 h2 => parseValue_number_overflow fuel s h1 h2,
   by rfl,
   by rfl,
   by rfl,
   by norm_num⟩

/-- Witness for C5 at the NUMBER tokens `1A` (in range) and
`8000000000000000` (2^63, out of range). -/
theorem claim_C5_witness :
    (0 ≤ (26 : Int) ∧ (26 : Int) < 2 ^ 63) ∧
    parseValue 1 ⟨⟨([] : List Char), 1, 12⟩, ⟨.NUMBER, "1A", 1, 8⟩, []⟩ =
      .ok (Node.num 26, ⟨⟨([] : List Char), 1, 12⟩, ⟨.EOF_TOKEN, "", 1, 12⟩, []⟩) ∧
    parseValue 1 ⟨⟨([] : List Char), 1, 21⟩, ⟨.NUMBER, "8000000000000000", 1, 5⟩, []⟩ =
      .error .stdOutOfRange := by
  refine ⟨claim_C5.1 "1A" 26 (by rfl), ?_, ?_⟩
  · have h := claim_C5.2.1 0 ⟨⟨([] : List Char), 1, 12⟩, ⟨.NUMBER, "1A", 1, 8⟩, []⟩ 26
      (by rfl) (by rfl)
    exact h.trans (by rfl)
  · exact claim_C5.2.2.1 0 ⟨⟨([] : List Char), 1, 21⟩, ⟨.NUMBER, "8000000000000000", 1, 5⟩, []⟩
      (by rfl) (by rfl)

/-- C6: a STRING token whose text is exactly `true` or `false` — whether
it came from the bare reserved word or a quoted literal — becomes a
Boolean node, and every other STRING token becomes a Text node holding
the literal text unescaped; both `flag = true` and `flag = "true"`
serialize to `"flag": true`. -/
theorem claim_C6 :
    (∀ fuel s v s1, parseValue (fuel + 1) s = .ok (v, s1) → s.cur.type = .STRING →
      v = (if s.cur.value = "true" then Node.bool true
           else if s.cur.value = "false" then Node.bool false
           else Node.str s.cur.value)) ∧
    translateProgram 100 "flag = true" = .ok "\x7b\n  \"flag\": true\n\x7d" ∧
    translateProgram 100 "flag = \"true\"" = .ok "\x7b\n  \"flag\": true\n\x7d" ∧
    translateProgram 100 "flag = false" = .ok "\x7b\n  \"flag\": false\n\x7d" ∧
    translateProgram 100 "s = \"hi\"" = .ok "\x7b\n  \"s\": \"hi\"\n\x7d" :=
  ⟨fun fuel s v s1 h ht => parseValue_string_shape fuel s v s1 h ht,
   by rfl, by rfl, by rfl, by rfl⟩

/-- Witness for C6 at a STRING token with text `true`. -/
theorem claim_C6_witness :
    Node.bool true =
      (if ("true" : String) = "true" then Node.bool true
       else if ("true" : String) = "false" then Node.bool false
       else Node.str "true") :=
  claim_C6.1 0 ⟨⟨([] : List Char), 1, 12⟩, ⟨.STRING, "true", 1, 8⟩, []⟩
    (Node.bool true) ⟨⟨([] : List Char), 1, 12⟩, ⟨.EOF_TOKEN, "", 1, 12⟩, []⟩
    (by rfl) (by rfl)

/-- C7: inserting an already-present key into a Mapping replaces the
previous value (last write wins) and the strictly-sorted key invariant
is preserved, so keys stay pairwise distinct — at most one entry per key
survives; `{ a = 0x01 a = 0x02 }` keeps exactly one `"a": 2` under the
root's `"unnamed"` entry, and of two top-level bare blocks only the
second survives under `"unnamed"`. -/
theorem claim_C7 :
    (∀ k v ps, keysSortedB ps = true → keysSortedB (mapInsert k v ps) = true) ∧
    (∀ ps, keysSortedB ps = true → (ps.map Prod.fst).Nodup) ∧
    (∀ k v ps, lookupConst k (mapInsert k v ps) = some v) ∧
    parse 100 "\x7b a = 0x01 a = 0x02 \x7d" =
      .ok (Node.obj [("unnamed", Node.obj [("a", Node.num 2)])]) ∧
    parse 100 "\x7b a = 0x01 \x7d \x7b b = 0x02 \x7d" =
      .ok (Node.obj [("unnamed", Node.obj [("b", Node.num 2)])]) :=
  ⟨fun k v ps h => mapInsert_sorted ps h,
   keysSortedB_nodup,
   fun k v ps => lookup_mapInsert k v ps,
   by rfl,
   by rfl⟩

/-- Witness for C7: overwriting the key `a`. -/
theorem claim_C7_witness :
    keysSortedB (mapInsert "a" (Node.num 2) [("a", Node.num 1)]) = true ∧
    ([("a", Node.num 2)].map Prod.fst).Nodup ∧
    lookupConst "a" (mapInsert "a" (Node.num 2) [("a", Node.num 1)]) = some (Node.num 2) :=
  ⟨claim_C7.1 "a" (Node.num 2) [("a", Node.num 1)] (by rfl),
   claim_C7.2.1 [("a", Node.num 2)] (by rfl),
   claim_C7.2.2.1 "a" (Node.num 2) [("a", Node.num 1)]⟩

/-- Counterexample to C8 as stated: on the input `"a` NUL `b"` the scan
(`peek() != '\0'` in the source) stops at the embedded NUL before the
next double quote, so the STRING token's content is `a` — not all
characters up to the next quote (`a` NUL `b`) — and the NUL is left
unconsumed, later tokenizing as INVALID. -/
theorem claim_C8_counterexample :
    (nextToken ⟨['\"', 'a', '\x00', 'b', '\"'], 1, 1⟩).1.type = TokenType.STRING ∧
    (nextToken ⟨['\"', 'a', '\x00', 'b', '\"'], 1, 1⟩).1.value.data = ['a'] ∧
    (nextToken ⟨['\"', 'a', '\x00', 'b', '\"'], 1, 1⟩).2.rest = ['\x00', 'b', '\"'] ∧
    decide ((['a'] : List Char) = ['a', '\x00', 'b']) = false ∧
    (nextToken ⟨['\x00', 'b', '\"'], 1, 1⟩).1.type = TokenType.INVALID :=
  ⟨by rfl, by rfl, by rfl, by rfl, by rfl⟩

/-- C8 as amended: `nextToken` never raises an error — each call either
returns the END token or strictly consumes input, so repeated calls
reach END — and a double quote starts a string whose content is all
characters up to the next double quote, NUL byte, or end of input, taken
verbatim with no escape processing: a closing quote is consumed, an
embedded NUL ends the content early and is left unconsumed, and a string
with neither silently consumes to end of input and still yields a STRING
token rather than erroring. -/
theorem claim_C8 :
    (∀ st : LexState, (nextToken st).1.type = .EOF_TOKEN ∨
      (nextToken st).2.rest.length < st.rest.length) ∧
    (∀ cs rest l c, (∀ x ∈ cs, (x == '\"') = false ∧ (x == '\x00') = false) →
      (nextToken ⟨'\"' :: (cs ++ '\"' :: rest), l, c⟩).1.type = .STRING ∧
      (nextToken ⟨'\"' :: (cs ++ '\"' :: rest), l, c⟩).1.value = String.mk cs ∧
      (nextToken ⟨'\"' :: (cs ++ '\"' :: rest), l, c⟩).2.rest = rest) ∧
    (∀ cs rest l c, (∀ x ∈ cs, (x == '\"') = false ∧ (x == '\x00') = false) →
      (nextToken ⟨'\"' :: (cs ++ '\x00' :: rest), l, c⟩).1.type = .STRING ∧
      (nextToken ⟨'\"' :: (cs ++ '\x00' :: rest), l, c⟩).1.value = String.mk cs ∧
      (nextToken ⟨'\"' :: (cs ++ '\x00' :: rest), l, c⟩).2.rest = '\x00' :: rest) ∧
    (∀ cs l c, (∀ x ∈ cs, (x == '\"') = false ∧ (x == '\x00') = false) →
      (nextToken ⟨'\"' :: cs, l, c⟩).1.type = .STRING ∧
      (nextToken ⟨'\"' :: cs, l, c⟩).1.value = String.mk cs ∧
      (nextToken ⟨'\"' :: cs, l, c⟩).2.rest = []) ∧
    nextToken ⟨"\"abc".data, 1, 1⟩ = (⟨.STRING, "abc", 1, 1⟩, ⟨[], 1, 5⟩) :=
  ⟨nextToken_progress,
   fun cs rest l c h => nextToken_string_terminated cs rest l c h,
   fun cs rest l c h => nextToken_string_nul cs rest l c h,
   fun cs l c h => nextToken_string_unterminated cs l c h,
   by rfl⟩

/-- Witness for C8 on the strings `"a"b` (terminated, leaves `b`),
`"a` NUL `b` (stops at the NUL, leaves it), and `"abc` (unterminated). -/
theorem claim_C8_witness :
    ((nextToken ⟨'\"' :: (['a'] ++ '\"' :: ['b']), 1, 1⟩).1.type = .STRING ∧
     (nextToken ⟨'\"' :: (['a'] ++ '\"' :: ['b']), 1, 1⟩).1.value = String.mk ['a'] ∧
     (nextToken ⟨'\"' :: (['a'] ++ '\"' :: ['b']), 1, 1⟩).2.rest = ['b']) ∧
    ((nextToken ⟨'\"' :: (['a'] ++ '\x00' :: ['b']), 1, 1⟩).1.type = .STRING ∧
     (nextToken ⟨'\"' :: (['a'] ++ '\x00' :: ['b']), 1, 1⟩).1.value = String.mk ['a'] ∧
     (nextToken ⟨'\"' :: (['a'] ++ '\x00' :: ['b']), 1, 1⟩).2.rest = '\x00' :: ['b']) ∧
    ((nextToken ⟨'\"' :: ['a', 'b', 'c'], 1, 1⟩).1.type = .STRING ∧
     (nextToken ⟨'\"' :: ['a', 'b', 'c'], 1, 1⟩).1.value = String.mk ['a', 'b', 'c'] ∧
     (nextToken ⟨'\"' :: ['a', 'b', 'c'], 1, 1⟩).2.rest = []) :=
  ⟨claim_C8.2.1 ['a'] ['b'] 1 1 (by decide),
   claim_C8.2.2.1 ['a'] ['b'] 1 1 (by decide),
   claim_C8.2.2.2.1 ['a', 'b', 'c'] 1 1 (by decide)⟩

/-- C9: the fragment `0x` (or `0X`) followed by no hexadecimal digit
tokenizes as a NUMBER token with empty text, and the parser's base-16
decode of that empty text fails with `std::invalid_argument` — an error
distinct from all four documented kinds (SyntaxError, UnknownConstant,
NumericOverflow alias `std::out_of_range`, and UnterminatedConstruct,
which manifests as a SyntaxError against END). -/
theorem claim_C9 :
    nextToken ⟨"0x".data, 1, 1⟩ = (⟨.NUMBER, "", 1, 1⟩, ⟨[], 1, 3⟩) ∧
    nextToken ⟨"0X".data, 1, 1⟩ = (⟨.NUMBER, "", 1, 1⟩, ⟨[], 1, 3⟩) ∧
    decodeHex "" = .error .stdInvalidArgument ∧
    parse 100 "x = 0x" = .error .stdInvalidArgument ∧
    (∀ l c e a, decide (PError.stdInvalidArgument = .syntaxError l c e a) = false) ∧
    (∀ n, decide (PError.stdInvalidArgument = .unknownConstant n) = false) ∧
    decide (PError.stdInvalidArgument = .stdOutOfRange) = false :=
  ⟨by rfl, by rfl, by rfl, by rfl,
   fun l c e a => decide_eq_false (fun h => PError.noConfusion h),
   fun n => decide_eq_false (fun h => PError.noConfusion h),
   by rfl⟩

/-- C10: every Number node in a successfully parsed tree holds a value
in `[0, 2^63 - 1]`: a `0x` literal's token text is a run of bare hex
digits (the grammar has no sign syntax), and the unsigned base-16 decode
either yields a value in that range or aborts the parse. -/
theorem claim_C10 :
    (∀ fuel input root, parse fuel input = .ok root → numsOK root = true) ∧
    (∀ rest x l c, (x == 'x' || x == 'X') = true →
      (nextToken ⟨'0' :: x :: rest, l, c⟩).1.type = .NUMBER ∧
      ∀ ch ∈ (nextToken ⟨'0' :: x :: rest, l, c⟩).1.value.data, isHexDigit ch = true) ∧
    (∀ t v, decodeHex t = .ok v → 0 ≤ v ∧ v < 2 ^ 63) :=
  ⟨fun fuel input root h => (parse_wf fuel input root h).2,
   fun rest x l c hx => nextToken_number rest x l c hx,
   fun _ _ h => decodeHex_range h⟩

/-- Witness for C10 at the input `port = 0x1A`. -/
theorem claim_C10_witness :
    numsOK (Node.obj [("port", Node.num 26)]) = true ∧
    ((nextToken ⟨'0' :: 'x' :: ['1', 'A'], 1, 1⟩).1.type = .NUMBER ∧
      ∀ ch ∈ (nextToken ⟨'0' :: 'x' :: ['1', 'A'], 1, 1⟩).1.value.data,
        isHexDigit ch = true) ∧
    (0 ≤ (26 : Int) ∧ (26 : Int) < 2 ^ 63) :=
  ⟨claim_C10.1 100 "port = 0x1A" (Node.obj [("port", Node.num 26)]) (by rfl),
   claim_C10.2.1 ['1', 'A'] 'x' 1 1 (by decide),
   claim_C10.2.2 "1A" 26 (by rfl)⟩
